import Mathlib

/-!
Verification development for the golicenser header template/matcher engine.

The Go sources (header.go, analysis.go, gitutil) are embedded shallowly:
strings are `List Char`, Go's in-place pointer mutation is modelled by
returning the post-call state, the external git subprocess calls are
modelled as an environment record of their results, and Go panics are an
explicit result constructor. Definitions mirror the Go code line by line;
the doc comment of each definition names the source location it embeds.
-/

namespace golicenser

/-- `unicode.IsSpace` restricted to the ASCII whitespace characters that can
occur in the strings handled here (mirrors the cases relevant to
`strings.TrimSpace` in header.go). -/
def isSpace (c : Char) : Bool :=
  c = ' ' || c = '\t' || c = '\n' || c.toNat = 11 || c.toNat = 12 || c = '\r'

/-- Left half of `strings.TrimSpace`. -/
def trimLeft (s : List Char) : List Char := s.dropWhile isSpace

/-- Right half of `strings.TrimSpace`. -/
def trimRight (s : List Char) : List Char := (s.reverse.dropWhile isSpace).reverse

/-- `strings.TrimSpace` from the Go standard library. -/
def trimSpace (s : List Char) : List Char := trimRight (trimLeft s)

/-- `strings.Split(s, "\n")` from the Go standard library: splitting an empty
string yields one empty field, and a trailing newline yields a final empty
field. -/
def splitLines : List Char → List (List Char)
  | [] => [[]]
  | c :: cs =>
    if c = '\n' then [] :: splitLines cs
    else
      match splitLines cs with
      | [] => [[c]]
      | l :: ls => (c :: l) :: ls

/-- Tail part of joining lines with `"\n"`: prepends a newline before every
line. -/
def joinTail : List (List Char) → List Char
  | [] => []
  | l :: ls => '\n' :: (l ++ joinTail ls)

/-- `strings.Join(lines, "\n")`: the inverse direction of `splitLines`. -/
def joinLines : List (List Char) → List Char
  | [] => []
  | l :: ls => l ++ joinTail ls

/-- `strings.HasPrefix` on character lists. -/
def hasPref : List Char → List Char → Bool
  | [], _ => true
  | _ :: _, [] => false
  | a :: as, b :: bs => a == b && hasPref as bs

/-- `strings.HasSuffix` on character lists. -/
def hasSuffix (pat s : List Char) : Bool := hasPref pat.reverse s.reverse

/-- The comment styles of header.go (`CommentStyle`): line comments, plain
block comments and starred block comments. -/
inductive CommentStyle where
  | line
  | block
  | starredBlock
deriving DecidableEq, Repr

/-- `(ls.map f).join`; used to state the Go `bytes.Buffer` loops. -/
def catMap (f : List Char → List Char) (ls : List (List Char)) : List Char :=
  (ls.map f).flatten

/-- The `if l != "" \x7b ... \x7d` of `CommentStyle.Render`: non-blank lines
get a separating space after the comment marker. -/
def lineOpt (l : List Char) : List Char := if l = [] then [] else ' ' :: l

/-- `CommentStyle.Render` from header.go lines 167-200: wraps plain text in
the given comment style.  Line style writes `//`, a space for non-blank
lines, the line and a newline; block style wraps in `/*\n` and `\n*/\n`;
starred block writes ` *`-prefixed lines between the delimiters. -/
def CommentStyle.render (cs : CommentStyle) (s : List Char) : List Char :=
  match cs with
  | .line =>
    catMap (fun l => '/' :: '/' :: (lineOpt l ++ ['\n'])) (splitLines s)
  | .block => '/' :: '*' :: '\n' :: (s ++ '\n' :: '*' :: '/' :: '\n' :: [])
  | .starredBlock =>
    '/' :: '*' :: '\n' ::
      (catMap (fun l => ' ' :: '*' :: (lineOpt l ++ ['\n'])) (splitLines s)
        ++ ' ' :: '*' :: '/' :: '\n' :: [])

/-- One rendered line-comment line without its newline: `//` plus the
optionally space-separated content. -/
def linePiece (l : List Char) : List Char := '/' :: '/' :: lineOpt l

/-- One rendered starred-block line without its newline: ` *` plus the
optionally space-separated content. -/
def starPiece (l : List Char) : List Char := ' ' :: '*' :: lineOpt l

/-- Is `c` a lowercase letter or digit (byte range check of the Go directive
grammar). -/
def lowerAlnum (c : Char) : Bool :=
  (97 ≤ c.toNat && c.toNat ≤ 122) || (48 ≤ c.toNat && c.toNat ≤ 57)

/-- The string constant `"line "` used by the directive grammar. -/
def lineDirPref : List Char := ['l', 'i', 'n', 'e', ' ']

/-- Modelled from the spec: header.go line 218 calls `isDirective`, whose
definition is not among the provided sources.  The spec (§4.1, §9) describes
it as the compiler-directive grammar for Go line comments: the comment text
is a directive when it has no space after the marker and is a recognized
directive token — the text starts with `line ` or is a lowercase
alphanumeric token, a colon and a non-space continuation (the Go toolchain
grammar, e.g. `go:build`). -/
def directiveToken (c : List Char) : Bool :=
  let pre := c.takeWhile (fun x => x ≠ ':')
  pre ≠ [] && pre.length < c.length && pre.all lowerAlnum &&
  (match c.drop (pre.length + 1) with
   | d :: _ => lowerAlnum d
   | [] => false)

/-- See `directiveToken`: the complete directive check. -/
def isDirective (c : List Char) : Bool :=
  hasPref lineDirPref c || directiveToken c

/-- Outcome of `parseComment` (header.go lines 202-272): a parsed comment
with its detected style, an error return, or a Go runtime panic (the
function slices lines without bounds checks). -/
inductive ParseResult where
  | ok (content : List Char) (style : CommentStyle)
  | err
  | panic
deriving DecidableEq, Repr

/-- The `for i, l := range strings.Split(s, "\n")` loop of the line-comment
branch of `parseComment` (header.go lines 212-227).  Each line is sliced
with `l[2:]` (a panic when the line is shorter than two bytes), directive
comments cause an early `return "", CommentStyleLine, nil`, and a single
leading space is stripped from lines of length `> 1`. -/
def lineBody : List (List Char) → Bool → List Char → ParseResult
  | [], _, acc => .ok acc .line
  | l :: rest, first, acc =>
    if l.length < 2 then .panic
    else
      let l1 := l.drop 2
      if isDirective l1 then .ok [] .line
      else
        let l2 := match l1 with
          | ' ' :: c :: t => c :: t
          | _ => l1
        lineBody rest false (acc ++ (if first then [] else ['\n']) ++ l2)

/-- The `for _, l := range lines[1:]` loop of the block-comment branch of
`parseComment` (header.go lines 248-263): starred lines are stripped of
their ` *` (and one following space); the first non-starred line makes the
function return the raw trimmed content as a plain block comment. -/
def blockLoop (inner : List Char) : List (List Char) → List Char → Bool → ParseResult
  | [], b, starred => if starred then .ok b .starredBlock else .ok b .block
  | l :: rest, b, _ =>
    match l with
    | ' ' :: '*' :: t =>
      let piece := match t with
        | ' ' :: t2 => t2
        | _ => t
      blockLoop inner rest (b ++ '\n' :: piece) true
    | _ => .ok inner .block

/-- First-line handling of the block-comment branch (header.go lines
237-246): a leading `*` (and one following space) is stripped and marks the
comment as starred. -/
def blockFirst (l0 : List Char) : List Char × Bool :=
  match l0 with
  | '*' :: t =>
    (match t with
     | ' ' :: t2 => t2
     | _ => t, true)
  | _ => (l0, false)

/-- `parseComment` from header.go lines 202-272.  The input is trimmed; a
`//` start selects the line branch; a `/*`…`*/` pair selects the block
branch, whose `s[2:len(s)-2]` slice panics when the trimmed input is shorter
than four bytes (the overlapping `"/*/"`); anything else is an error. -/
def parseComment (input : List Char) : ParseResult :=
  let s := trimSpace input
  if s.length < 2 then .err
  else if hasPref ['/', '/'] s then lineBody (splitLines s) true []
  else if hasPref ['/', '*'] s && hasSuffix ['*', '/'] s then
    if s.length < 4 then .panic
    else
      let inner := trimSpace ((s.drop 2).take (s.length - 4))
      if inner.length < 2 then .ok inner .block
      else
        match splitLines inner with
        | [] => .err
        | l0 :: rest =>
          let p := blockFirst l0
          blockLoop inner rest p.1 p.2
  else .err

example : parseComment ('/' :: '/' :: ' ' :: 'H' :: 'i' :: '\n' :: []) = .ok ['H', 'i'] .line := by
  decide

example : parseComment ('/' :: '*' :: '/' :: []) = .panic := by decide

example : parseComment ('h' :: 'i' :: []) = .err := by decide

example :
    parseComment ('/' :: '*' :: '\n' :: 'H' :: 'i' :: '\n' :: '*' :: '/' :: '\n' :: []) =
      .ok ['H', 'i'] .block := by
  decide

example :
    parseComment
        ('/' :: '*' :: '\n' :: ' ' :: '*' :: ' ' :: 'H' :: 'i' :: '\n' :: ' ' :: '*' :: '/' :: '\n' :: []) =
      .ok ['H', 'i'] .starredBlock := by
  decide

example : CommentStyle.render .line ['H', 'i'] = ('/' :: '/' :: ' ' :: 'H' :: 'i' :: '\n' :: []) := by
  decide

/-- The seven year policies of header.go lines 43-83 (`YearMode`). -/
inductive YearMode where
  | preserve
  | preserveThisYearRange
  | preserveModifiedRange
  | thisYear
  | lastModified
  | gitRange
  | gitModifiedList
deriving DecidableEq, Repr

/-- `time.Time.Format("2006")`: the four-digit year of a timestamp.  Only
the year component of the git/filesystem timestamps is ever used by
header.go, so timestamps are modelled by their year. -/
def yearFmt (y : Nat) : List Char :=
  [Char.ofNat (48 + y / 1000 % 10), Char.ofNat (48 + y / 100 % 10),
   Char.ofNat (48 + y / 10 % 10), Char.ofNat (48 + y % 10)]

/-- Results of the per-file external lookups made by `Header.Update` and of
the injected clock.  `lastMod` abstracts `lastModTime` (gitutil, the
`git diff`/`git log`/`os.Stat` chain), `gitRange` abstracts `gitModRange`
and `gitList` abstracts `gitModTimes`; `none` models the call returning an
error (`err != nil`).  Timestamps are modelled by their years, in the order
git produces them. -/
structure GitEnv where
  currentYear : List Char
  lastMod : Option Nat
  gitRange : Option (Nat × Nat)
  gitList : Option (List Nat)

/-- The `for i, modTime := range modTimes[1:]` loop of the
`YearModeGitModifiedList` case (header.go lines 455-460): a year is appended
whenever it differs from the year of the immediately preceding timestamp.
`prev` carries `modTimes[i]`, the original predecessor. -/
def gitListLoop (prev : Nat) : List Nat → List Char
  | [] => []
  | t :: ts => (if prev = t then [] else ',' :: ' ' :: yearFmt t) ++ gitListLoop t ts

/-- The year-resolution `switch h.yearMode` of `Header.Update` (header.go
lines 410-462).  `cap` is the year capture: `none` models
`SubexpIndex("year") == -1` and `some y` models `match[i] = y`.  Failed
lookups leave the year empty (or, for the preserve modes, keep the captured
year), exactly as the `err == nil` guards do. -/
def updateYear (ym : YearMode) (cap : Option (List Char)) (env : GitEnv) : List Char :=
  match ym with
  | .preserve =>
    match cap with
    | some y => y
    | none => []
  | .preserveThisYearRange =>
    match cap with
    | none => []
    | some y =>
      let y1 := if y.contains '-' then y.takeWhile (fun c => c ≠ '-') else y
      if y1 = env.currentYear then y1 else y1 ++ '-' :: env.currentYear
  | .preserveModifiedRange =>
    match cap with
    | none => []
    | some y =>
      match env.lastMod with
      | none => y
      | some m =>
        let y1 := if y.contains '-' then y.takeWhile (fun c => c ≠ '-') else y
        if y1 = yearFmt m then y1 else y1 ++ '-' :: yearFmt m
  | .thisYear => []
  | .lastModified =>
    match env.lastMod with
    | some m => yearFmt m
    | none => []
  | .gitRange =>
    match env.gitRange with
    | some (c, m) => if c = m then yearFmt c else yearFmt c ++ '-' :: yearFmt m
    | none => []
  | .gitModifiedList =>
    match env.gitList with
    | some [] => []
    | some (t :: rest) => yearFmt t ++ gitListLoop t rest
    | none => []

/-- A template variable (`Var` in header.go lines 289-297): a value and a
recognition regexp, the latter possibly empty. -/
structure Var where
  value : List Char
  regexp : List Char
deriving DecidableEq, Repr

/-- Is `c` one of the bytes `regexp.QuoteMeta` escapes (the Go
`specialBytes` set). -/
def isRegexpSpecial (c : Char) : Bool :=
  c = '\\' || c = '.' || c = '+' || c = '*' || c = '?' || c = '(' || c = ')' ||
  c = '|' || c = '[' || c = ']' || c.toNat = 123 || c.toNat = 125 || c = '^' || c = '$'

/-- `regexp.QuoteMeta` from the Go standard library: every special byte is
preceded by a backslash. -/
def quoteMeta (s : List Char) : List Char :=
  s.flatMap fun c => if isRegexpSpecial c then ['\\', c] else [c]

/-- The `for name, v := range opts.Variables` loop of `NewHeader` (header.go
lines 339-348): a `Var` whose `Regexp` is empty has it overwritten with the
regexp-escaped `Value`.  The Go loop mutates the caller's map through the
`*Var` pointers; the returned association list is the post-call state of
the caller's map. -/
def defaultVarRegexps (vars : List (List Char × Var)) : List (List Char × Var) :=
  vars.map fun nv =>
    (nv.1, if nv.2.regexp = [] then { nv.2 with regexp := quoteMeta nv.2.value } else nv.2)

/-- An element of a parsed `text/template`: literal text or a variable
placeholder `\x7b\x7b.name\x7d\x7d`.  The claims only exercise templates
built from these two forms, so the renderer is embedded at this level. -/
inductive TmplElem where
  | lit (s : List Char)
  | var (name : List Char)
deriving DecidableEq, Repr

/-- Association-list lookup used for the template variable map. -/
def assocLookup : List (List Char × List Char) → List Char → Option (List Char)
  | [], _ => none
  | (k, v) :: rest, n => if k = n then some v else assocLookup rest n

/-- Template execution with `missingkey=error` semantics: an unresolvable
placeholder fails the whole render. -/
def renderElems (b : List Char → Option (List Char)) : List TmplElem → Option (List Char)
  | [] => some []
  | .lit s :: rest =>
    match renderElems b rest with
    | some r => some (s ++ r)
    | none => none
  | .var n :: rest =>
    match b n, renderElems b rest with
    | some v, some r => some (v ++ r)
    | _, _ => none

/-- The string constant `"author"`. -/
def authorKey : List Char := ['a', 'u', 't', 'h', 'o', 'r']

/-- The string constant `"filename"`. -/
def filenameKey : List Char := ['f', 'i', 'l', 'e', 'n', 'a', 'm', 'e']

/-- The string constant `"year"`. -/
def yearKey : List Char := ['y', 'e', 'a', 'r']

/-- The `Header` struct of header.go lines 274-283.  The compiled matcher
regexp is abstracted by `findMatch`: `none` models
`matcher.FindStringSubmatch` returning `nil`, and `some cap` models a match
whose year capture is `cap` (see `updateYear`). -/
structure HeaderM where
  tmpl : List TmplElem
  findMatch : List Char → Option (Option (List Char))
  author : List Char
  vars : List (List Char × List Char)
  yearMode : YearMode
  commentStyle : CommentStyle

/-- The binding map built by `Header.render` (header.go lines 476-482): the
built-ins `author`, `filename` and `year`, with `addVariables` overriding
them by any custom variable of the same name (map insertion order). -/
def lookupBinding (h : HeaderM) (filename year : List Char) (n : List Char) : Option (List Char) :=
  match assocLookup h.vars n with
  | some v => some v
  | none =>
    if n = authorKey then some h.author
    else if n = filenameKey then some filename
    else if n = yearKey then some year
    else none

/-- `Header.render` (header.go lines 475-489): execute the template against
the variable bindings.  `none` models the template-execution error return. -/
def renderT (h : HeaderM) (filename year : List Char) : Option (List Char) :=
  renderElems (lookupBinding h filename year) h.tmpl

/-- `Header.Create` (header.go lines 390-397): render with
`timeNow().Format("2006")` as the year and wrap in the configured comment
style.  Note that the year mode and the git environment are not consulted. -/
def create (h : HeaderM) (env : GitEnv) (filename : List Char) : Option (List Char) :=
  match renderT h filename env.currentYear with
  | some s => some (CommentStyle.render h.commentStyle s)
  | none => none

/-- Outcome of `Header.Update`: the new comment text and the modified flag,
an error return, or a panic propagated from `parseComment`. -/
inductive UpdateResult where
  | ok (text : List Char) (modified : Bool)
  | err
  | panic
deriving DecidableEq, Repr

/-- `Header.Update` (header.go lines 400-473): parse the existing comment
(propagating its error), run the matcher, resolve the year by mode with the
current year substituted for a blank result, re-render, and report the
comment modified when the text or the comment style changed. -/
def update (h : HeaderM) (env : GitEnv) (filename input : List Char) : UpdateResult :=
  match parseComment input with
  | .panic => .panic
  | .err => .err
  | .ok text cs =>
    match h.findMatch text with
    | none => .ok text false
    | some cap =>
      let y := updateYear h.yearMode cap env
      let y2 := if y = [] then env.currentYear else y
      match renderT h filename y2 with
      | none => .err
      | some newHeader =>
        .ok (CommentStyle.render h.commentStyle newHeader)
          (decide (newHeader ≠ text) || decide (h.commentStyle ≠ cs))

/-- Is `c` an ASCII digit: the `\d` character class of the year regexp. -/
def isDigit (c : Char) : Bool := 48 ≤ c.toNat && c.toNat ≤ 57

/-- The `(?:, (\d{4}))+` tail of the third `regexpYears` alternative: one or
more comma-space-separated four-digit groups (the empty tail closes the
repetition). -/
def commaTail : List Char → Bool
  | [] => true
  | ',' :: ' ' :: a :: b :: c :: d :: rest =>
    isDigit a && isDigit b && isDigit c && isDigit d && commaTail rest
  | _ => false

/-- Full-string semantics of the `regexpYears` alternation (header.go line
41) as the RE2 engine parses it.  The second alternative is written
`(\d\x7b4\x7d)-(\d\x7b4])` in the source: its `\x7b4]` is not a valid
repetition, so RE2 parses the brace literally and the alternative matches
four digits, a hyphen, one digit and the literal characters brace-4-bracket
— not a four-digit year range. -/
def yearAlt (s : List Char) : Bool :=
  match s with
  | a :: b :: c :: d :: rest =>
    isDigit a && isDigit b && isDigit c && isDigit d &&
    (match rest with
     | [] => true
     | ['-', e, x, '4', ']'] => isDigit e && x.toNat = 123
     | _ => commaTail rest)
  | _ => false

/-- RE2 search semantics of the matcher regexp `headerMatcher` (header.go
lines 491-528) builds for an escaped template of shape
`literal text, year placeholder, literal text` with all other variables at
exact-match patterns: the pattern `lit1 (?P<year>regexpYears) lit2` matches
the text iff some position splits it into `lit1`, a `yearAlt` match and
`lit2`. -/
def litYearLitAccepts (lit1 lit2 t : List Char) : Bool :=
  (List.range (t.length + 1)).any fun i =>
    hasPref lit1 (t.drop i) &&
    (let r := (t.drop i).drop lit1.length
     (List.range (r.length + 1)).any fun n =>
       yearAlt (r.take n) && hasPref lit2 (r.drop n))

/-- The last element of a line list (`[]` for the empty list). -/
def lastD : List (List Char) → List Char
  | [] => []
  | [l] => l
  | _ :: l2 :: t => lastD (l2 :: t)

/-- The text has no trailing whitespace on its final line. -/
def lastLineOK (s : List Char) : Prop :=
  trimRight (lastD (splitLines s)) = lastD (splitLines s)

/-- Does the line start with a star (first-line test of the block branch). -/
def headIsStar (l : List Char) : Bool := hasPref ['*'] l

/-- Does the line start with the starred-block marker `" *"`
(`strings.HasPrefix(l, " *")`). -/
def startsStar (l : List Char) : Bool := hasPref [' ', '*'] l

/-- Conditions under which a plain block comment parses back verbatim: tiny
content returns early, otherwise the first line must not look starred and,
when there are several lines, some later line must not carry the starred
marker. -/
def blockSafe (s : List Char) : Prop :=
  s.length < 2 ∨
    (headIsStar ((splitLines s).headD []) = false ∧
      ((splitLines s).tail = [] ∨ ∃ l ∈ (splitLines s).tail, startsStar l = false))

theorem splitLines_ne_nil (s : List Char) : splitLines s ≠ [] := by
  induction s with
  | nil => simp [splitLines]
  | cons c cs ih =>
    simp only [splitLines]
    split
    · simp
    · cases h : splitLines cs with
      | nil => simp
      | cons l ls => simp [h]

theorem joinLines_splitLines (s : List Char) : joinLines (splitLines s) = s := by
  induction s with
  | nil => simp [splitLines, joinLines, joinTail]
  | cons c cs ih =>
    by_cases hc : c = '\n'
    · subst hc
      cases hs : splitLines cs with
      | nil => exact absurd hs (splitLines_ne_nil cs)
      | cons l ls =>
        rw [hs] at ih
        simp only [joinLines, joinTail] at ih ⊢
        simp [splitLines, hs, joinLines, joinTail, ih]
    · cases hs : splitLines cs with
      | nil => exact absurd hs (splitLines_ne_nil cs)
      | cons l ls =>
        rw [hs] at ih
        simp only [joinLines, joinTail] at ih ⊢
        simp [splitLines, hc, hs, joinLines, joinTail, ih]

theorem splitLines_no_newline (s : List Char) : ∀ l ∈ splitLines s, '\n' ∉ l := by
  induction s with
  | nil => simp [splitLines]
  | cons c cs ih =>
    simp only [splitLines]
    split
    · simpa using ih
    · rename_i hc
      cases hs : splitLines cs with
      | nil => exact absurd hs (splitLines_ne_nil cs)
      | cons l ls =>
        rw [hs] at ih
        intro x hx
        simp only [List.mem_cons] at hx
        rcases hx with rfl | hx
        · intro hmem
          simp only [List.mem_cons] at hmem
          rcases hmem with h1 | h2
          · exact hc h1.symm
          · exact ih l (by simp) h2
        · exact ih x (by simp [hx])

theorem splitLines_of_no_newline (a : List Char) (h : '\n' ∉ a) : splitLines a = [a] := by
  induction a with
  | nil => simp [splitLines]
  | cons c cs ih =>
    simp only [List.mem_cons, not_or] at h
    have hc : ¬ c = '\n' := fun he => h.1 he.symm
    simp [splitLines, hc, ih h.2]

theorem splitLines_append_newline (a b : List Char) (h : '\n' ∉ a) :
    splitLines (a ++ '\n' :: b) = a :: splitLines b := by
  induction a with
  | nil => simp [splitLines]
  | cons c cs ih =>
    simp only [List.mem_cons, not_or] at h
    have hc : ¬ c = '\n' := fun he => h.1 he.symm
    simp [splitLines, hc, ih h.2]

theorem joinTail_eq (x : List Char) (xs : List (List Char)) :
    joinTail (x :: xs) = '\n' :: joinLines (x :: xs) := by
  simp [joinTail, joinLines]

theorem splitLines_joinLines (ls : List (List Char)) (hne : ls ≠ [])
    (h : ∀ l ∈ ls, '\n' ∉ l) : splitLines (joinLines ls) = ls := by
  induction ls with
  | nil => exact absurd rfl hne
  | cons l t ih =>
    cases t with
    | nil => simpa [joinLines, joinTail] using splitLines_of_no_newline l (h l (by simp))
    | cons l2 t2 =>
      have : joinLines (l :: l2 :: t2) = l ++ '\n' :: joinLines (l2 :: t2) := by
        simp [joinLines, joinTail]
      rw [this, splitLines_append_newline l _ (h l (by simp)),
        ih (by simp) (fun x hx => h x (by simp [hx]))]

theorem trimLeft_cons_nonspace (c : Char) (s : List Char) (h : isSpace c = false) :
    trimLeft (c :: s) = c :: s := by
  simp [trimLeft, List.dropWhile_cons, h]

theorem trimLeft_cons_space (c : Char) (s : List Char) (h : isSpace c = true) :
    trimLeft (c :: s) = trimLeft s := by
  simp [trimLeft, List.dropWhile_cons, h]

theorem trimRight_append_nonspace (s : List Char) (c : Char) (h : isSpace c = false) :
    trimRight (s ++ [c]) = s ++ [c] := by
  simp [trimRight, List.dropWhile_cons, h]

theorem trimRight_append_space (s : List Char) (c : Char) (h : isSpace c = true) :
    trimRight (s ++ [c]) = trimRight s := by
  simp [trimRight, List.dropWhile_cons, h]

theorem trimRight_eq_self_cases (l : List Char) (h : trimRight l = l) :
    l = [] ∨ ∃ X c, l = X ++ [c] ∧ isSpace c = false := by
  cases hr : l.reverse with
  | nil =>
    left
    simpa using congrArg List.reverse hr
  | cons c rest =>
    by_cases hc : isSpace c
    · exfalso
      have hlen : (trimRight l).length ≤ rest.length := by
        simp only [trimRight, hr, List.dropWhile_cons, hc, if_true]
        simpa using (List.dropWhile_suffix (l := rest) isSpace).length_le
      have hll : l.length = rest.length + 1 := by
        have := congrArg List.length hr
        simpa using this
      rw [h, hll] at hlen
      omega
    · right
      refine ⟨rest.reverse, c, ?_, by simpa using hc⟩
      have := congrArg List.reverse hr
      simpa using this

theorem trimRight_append_of_ok (a t : List Char) (h : trimRight t = t) (hne : t ≠ []) :
    trimRight (a ++ t) = a ++ t := by
  rcases trimRight_eq_self_cases t h with rfl | ⟨X, c, rfl, hc⟩
  · exact absurd rfl hne
  · rw [← List.append_assoc]
    exact trimRight_append_nonspace _ c hc

theorem lastD_cons_cons (x y : List Char) (t : List (List Char)) :
    lastD (x :: y :: t) = lastD (y :: t) := rfl

theorem lastD_map (g : List Char → List Char) (ls : List (List Char)) (h : ls ≠ []) :
    lastD (ls.map g) = g (lastD ls) := by
  induction ls with
  | nil => exact absurd rfl h
  | cons l t ih =>
    cases t with
    | nil => rfl
    | cons l2 t2 => simpa [lastD] using ih (by simp)

theorem joinLines_ne_nil_of_lastD (xs : List (List Char)) (hne : xs ≠ [])
    (h : lastD xs ≠ []) : joinLines xs ≠ [] := by
  cases xs with
  | nil => exact absurd rfl hne
  | cons x t =>
    cases t with
    | nil => simpa [joinLines, joinTail, lastD] using h
    | cons y t2 => simp [joinLines, joinTail]

theorem trimRight_joinLines (xs : List (List Char)) (hne : xs ≠ [])
    (hlast : trimRight (lastD xs) = lastD xs) (hlne : lastD xs ≠ []) :
    trimRight (joinLines xs) = joinLines xs := by
  induction xs with
  | nil => exact absurd rfl hne
  | cons x t ih =>
    cases t with
    | nil => simpa [joinLines, joinTail, lastD] using hlast
    | cons y t2 =>
      rw [lastD_cons_cons] at hlast hlne
      have ihh := ih (by simp) hlast hlne
      have hJ2 := joinLines_ne_nil_of_lastD (y :: t2) (by simp) hlne
      have hshape : joinLines (x :: y :: t2) = (x ++ ['\n']) ++ joinLines (y :: t2) := by
        simp [joinLines, joinTail]
      rw [hshape]
      exact trimRight_append_of_ok _ _ ihh hJ2

theorem catMap_cons (f : List Char → List Char) (l : List Char) (ls : List (List Char)) :
    catMap f (l :: ls) = f l ++ catMap f ls := by
  simp [catMap]

theorem catMap_newline_eq (g : List Char → List Char) (ls : List (List Char)) (hne : ls ≠ []) :
    catMap (fun l => g l ++ ['\n']) ls = joinLines (ls.map g) ++ ['\n'] := by
  induction ls with
  | nil => exact absurd rfl hne
  | cons l t ih =>
    cases t with
    | nil => simp [catMap, joinLines, joinTail]
    | cons y t2 =>
      rw [catMap_cons, ih (by simp)]
      simp [joinLines, joinTail]

theorem isDirective_nil : isDirective [] = false := by decide

theorem directiveToken_space (l : List Char) : directiveToken (' ' :: l) = false := by
  simp [directiveToken, List.takeWhile_cons, lowerAlnum]

theorem isDirective_space (l : List Char) : isDirective (' ' :: l) = false := by
  simp [isDirective, hasPref, lineDirPref, directiveToken_space l]

theorem noNl_linePiece (l : List Char) (h : '\n' ∉ l) : '\n' ∉ linePiece l := by
  cases l with
  | nil => simp [linePiece, lineOpt]
  | cons c t =>
    simp only [List.mem_cons, not_or] at h
    simp only [linePiece, lineOpt, List.mem_cons, not_or]
    simp only [if_neg (List.cons_ne_nil c t)]
    simp only [List.mem_cons, not_or]
    exact ⟨by decide, by decide, by decide, h.1, h.2⟩

theorem trimRight_linePiece (L : List Char) (h : trimRight L = L) :
    trimRight (linePiece L) = linePiece L := by
  rcases trimRight_eq_self_cases L h with rfl | ⟨X, c, rfl, hc⟩
  · show trimRight (['/'] ++ ['/']) = ['/'] ++ ['/']
    exact trimRight_append_nonspace ['/'] '/' (by decide)
  · have hsh : linePiece (X ++ [c]) = ('/' :: '/' :: ' ' :: X) ++ [c] := by
      simp [linePiece, lineOpt]
    rw [hsh]
    exact trimRight_append_nonspace _ c hc

theorem lineBody_cons_piece (l : List Char) (rest : List (List Char)) (first : Bool)
    (acc : List Char) :
    lineBody (linePiece l :: rest) first acc =
      lineBody rest false (acc ++ (if first then [] else ['\n']) ++ l) := by
  cases l with
  | nil => simp [lineBody, linePiece, lineOpt, isDirective_nil]
  | cons c t => simp [lineBody, linePiece, lineOpt, isDirective_space]

theorem lineBody_map (ls : List (List Char)) (acc : List Char) :
    lineBody (ls.map linePiece) false acc = .ok (acc ++ joinTail ls) .line := by
  induction ls generalizing acc with
  | nil => simp [lineBody, joinTail]
  | cons l t ih =>
    rw [List.map_cons, lineBody_cons_piece, ih]
    simp [joinTail]

theorem lineBody_map_true (l0 : List Char) (t : List (List Char)) :
    lineBody ((l0 :: t).map linePiece) true [] = .ok (joinLines (l0 :: t)) .line := by
  rw [List.map_cons, lineBody_cons_piece, lineBody_map]
  simp [joinLines]

/-- Round trip for the line comment style, on texts whose final line carries
no trailing whitespace. -/
theorem parse_render_line (s : List Char) (h : lastLineOK s) :
    parseComment (CommentStyle.render .line s) = .ok s .line := by
  obtain ⟨l0, t, hsplit⟩ : ∃ l0 t, splitLines s = l0 :: t := by
    cases hh : splitLines s with
    | nil => exact absurd hh (splitLines_ne_nil s)
    | cons a b => exact ⟨a, b, rfl⟩
  have hnl := splitLines_no_newline s
  rw [hsplit] at hnl
  have hrend : CommentStyle.render .line s = joinLines ((l0 :: t).map linePiece) ++ ['\n'] := by
    show catMap (fun l => linePiece l ++ ['\n']) (splitLines s) = _
    rw [hsplit, catMap_newline_eq _ _ (by simp)]
  have hJshape : joinLines ((l0 :: t).map linePiece) =
      '/' :: '/' :: (lineOpt l0 ++ joinTail (t.map linePiece)) := by
    simp [joinLines, linePiece]
  have hlastL : trimRight (lastD (l0 :: t)) = lastD (l0 :: t) := by
    unfold lastLineOK at h
    rwa [hsplit] at h
  have hTRJ : trimRight (joinLines ((l0 :: t).map linePiece)) =
      joinLines ((l0 :: t).map linePiece) := by
    apply trimRight_joinLines _ (by simp)
    · rw [lastD_map _ _ (by simp)]
      exact trimRight_linePiece _ hlastL
    · rw [lastD_map _ _ (by simp)]
      simp [linePiece]
  have htrim : trimSpace (CommentStyle.render .line s) = joinLines ((l0 :: t).map linePiece) := by
    rw [hrend]
    unfold trimSpace
    rw [hJshape]
    have hL : trimLeft (('/' :: '/' :: (lineOpt l0 ++ joinTail (t.map linePiece))) ++ ['\n']) =
        ('/' :: '/' :: (lineOpt l0 ++ joinTail (t.map linePiece))) ++ ['\n'] := by
      rw [List.cons_append, List.cons_append]
      exact trimLeft_cons_nonspace _ _ (by decide)
    rw [hL, trimRight_append_space _ '\n' (by decide), ← hJshape, hTRJ]
  have hsplitJ : splitLines (joinLines ((l0 :: t).map linePiece)) = (l0 :: t).map linePiece := by
    apply splitLines_joinLines _ (by simp)
    intro x hx
    simp only [List.mem_map] at hx
    obtain ⟨y, hy, rfl⟩ := hx
    exact noNl_linePiece y (hnl y hy)
  show parseComment (CommentStyle.render .line s) = .ok s .line
  unfold parseComment
  rw [htrim]
  have hlen : ¬ (joinLines ((l0 :: t).map linePiece)).length < 2 := by
    rw [hJshape]
    simp
  have hpref : hasPref ['/', '/'] (joinLines ((l0 :: t).map linePiece)) = true := by
    rw [hJshape]
    simp [hasPref]
  rw [if_neg hlen, if_pos hpref, hsplitJ, lineBody_map_true]
  have hs2 : joinLines (l0 :: t) = s := by
    rw [← hsplit]
    exact joinLines_splitLines s
  rw [hs2]

theorem trimLeft_eq_self_cases (l : List Char) (h : trimLeft l = l) :
    l = [] ∨ ∃ c t, l = c :: t ∧ isSpace c = false := by
  cases l with
  | nil => exact Or.inl rfl
  | cons c t =>
    by_cases hc : isSpace c
    · exfalso
      rw [trimLeft_cons_space c t hc] at h
      have : (trimLeft t).length ≤ t.length := by
        simpa [trimLeft] using (List.dropWhile_suffix (l := t) isSpace).length_le
      rw [h] at this
      simp at this
    · exact Or.inr ⟨c, t, rfl, by simpa using hc⟩

theorem blockFirst_not_star (l0 : List Char) (h : headIsStar l0 = false) :
    blockFirst l0 = (l0, false) := by
  unfold blockFirst
  split
  · simp [headIsStar, hasPref] at h
  · rfl

theorem blockFirst_star (L : List Char) : blockFirst ('*' :: lineOpt L) = (L, true) := by
  cases L with
  | nil => simp [blockFirst, lineOpt]
  | cons c t => simp [blockFirst, lineOpt]

theorem blockLoop_not_star (inner l : List Char) (rest : List (List Char)) (b : List Char)
    (st : Bool) (h : startsStar l = false) :
    blockLoop inner (l :: rest) b st = .ok inner .block := by
  unfold blockLoop
  split
  · simp [startsStar, hasPref] at h
  · rfl

theorem startsStar_shape (l : List Char) (h : startsStar l = true) :
    ∃ t2, l = ' ' :: '*' :: t2 := by
  cases l with
  | nil => simp [startsStar, hasPref] at h
  | cons c1 r1 =>
    cases r1 with
    | nil => simp [startsStar, hasPref] at h
    | cons c2 r2 =>
      simp only [startsStar, hasPref, Bool.and_eq_true, beq_iff_eq] at h
      exact ⟨r2, by rw [← h.1, ← h.2.1]⟩

theorem blockLoop_cons_star (inner t2 : List Char) (rest : List (List Char)) (b : List Char)
    (st : Bool) :
    blockLoop inner ((' ' :: '*' :: t2) :: rest) b st =
      blockLoop inner rest
        (b ++ '\n' :: (match t2 with | ' ' :: t3 => t3 | _ => t2)) true := rfl

theorem blockLoop_cons_starPiece (inner l : List Char) (rest : List (List Char)) (b : List Char)
    (st : Bool) :
    blockLoop inner (starPiece l :: rest) b st = blockLoop inner rest (b ++ '\n' :: l) true := by
  cases l with
  | nil => simp [blockLoop, starPiece, lineOpt]
  | cons c t => simp [blockLoop, starPiece, lineOpt]

theorem blockLoop_map_star (inner : List Char) (ls : List (List Char)) (b : List Char) :
    blockLoop inner (ls.map starPiece) b true = .ok (b ++ joinTail ls) .starredBlock := by
  induction ls generalizing b with
  | nil => simp [blockLoop, joinTail]
  | cons l t ih =>
    rw [List.map_cons, blockLoop_cons_starPiece, ih]
    simp [joinTail]

theorem blockLoop_exists_nonstar (inner : List Char) (rest : List (List Char))
    (h : ∃ l ∈ rest, startsStar l = false) :
    ∀ b st, blockLoop inner rest b st = .ok inner .block := by
  induction rest with
  | nil => simp at h
  | cons l t ih =>
    intro b st
    by_cases hl : startsStar l = false
    · exact blockLoop_not_star inner l t b st hl
    · have hstar : startsStar l = true := by
        cases hx : startsStar l
        · exact absurd hx hl
        · rfl
      obtain ⟨t2, rfl⟩ := startsStar_shape l hstar
      have hex : ∃ x ∈ t, startsStar x = false := by
        rcases h with ⟨x, hx, hxs⟩
        rcases List.mem_cons.mp hx with rfl | hx2
        · exact absurd hxs hl
        · exact ⟨x, hx2, hxs⟩
      rw [blockLoop_cons_star]
      exact ih hex _ _

/-- The content slice of the block branch round-trips to `s` itself. -/
theorem block_inner_eq (s : List Char) (hl : trimLeft s = s) (hr : trimRight s = s) :
    trimSpace ('\n' :: (s ++ ['\n'])) = s := by
  rcases trimLeft_eq_self_cases s hl with rfl | ⟨c, t, rfl, hc⟩
  · decide
  · unfold trimSpace
    have h1 : trimLeft ('\n' :: ((c :: t) ++ ['\n'])) = trimLeft ((c :: t) ++ ['\n']) :=
      trimLeft_cons_space _ _ (by decide)
    have h2 : trimLeft ((c :: t) ++ ['\n']) = (c :: t) ++ ['\n'] := by
      rw [List.cons_append]
      exact trimLeft_cons_nonspace _ _ hc
    rw [h1, h2, trimRight_append_space _ '\n' (by decide), hr]

/-- Round trip for the plain block comment style, under `blockSafe`. -/
theorem parse_render_block (s : List Char) (hl : trimLeft s = s) (hr : trimRight s = s)
    (hsafe : blockSafe s) : parseComment (CommentStyle.render .block s) = .ok s .block := by
  have hrend : CommentStyle.render .block s = '/' :: '*' :: '\n' :: (s ++ ['\n', '*', '/', '\n']) := by
    simp [CommentStyle.render]
  have htrim : trimSpace (CommentStyle.render .block s) =
      '/' :: '*' :: '\n' :: (s ++ ['\n', '*', '/']) := by
    rw [hrend]
    unfold trimSpace
    have hTL : trimLeft ('/' :: '*' :: '\n' :: (s ++ ['\n', '*', '/', '\n'])) =
        '/' :: '*' :: '\n' :: (s ++ ['\n', '*', '/', '\n']) :=
      trimLeft_cons_nonspace _ _ (by decide)
    rw [hTL]
    have e1 : '/' :: '*' :: '\n' :: (s ++ ['\n', '*', '/', '\n']) =
        (('/' :: '*' :: '\n' :: (s ++ ['\n', '*'])) ++ ['/']) ++ ['\n'] := by
      simp
    have e2 : ('/' :: '*' :: '\n' :: (s ++ ['\n', '*'])) ++ ['/'] =
        '/' :: '*' :: '\n' :: (s ++ ['\n', '*', '/']) := by
      simp
    rw [e1, trimRight_append_space _ '\n' (by decide),
      trimRight_append_nonspace _ '/' (by decide), e2]
  have hlen : ('/' :: '*' :: '\n' :: (s ++ ['\n', '*', '/'])).length = s.length + 6 := by
    simp
  have hinner0 :
      (('/' :: '*' :: '\n' :: (s ++ ['\n', '*', '/'])).drop 2).take
        (('/' :: '*' :: '\n' :: (s ++ ['\n', '*', '/'])).length - 4) = '\n' :: (s ++ ['\n']) := by
    rw [hlen]
    simp only [List.drop_succ_cons, List.drop_zero]
    rw [show s.length + 6 - 4 = s.length + 1 + 1 from by omega, List.take_succ_cons,
      List.take_append_eq_append_take]
    have hta : s.take (s.length + 1) = s := List.take_of_length_le (by omega)
    rw [hta, show s.length + 1 - s.length = 1 from by omega]
    simp
  unfold parseComment
  rw [htrim]
  have hc1 : ¬ ('/' :: '*' :: '\n' :: (s ++ ['\n', '*', '/'])).length < 2 := by
    rw [hlen]
    omega
  have hc2 : ¬ hasPref ['/', '/'] ('/' :: '*' :: '\n' :: (s ++ ['\n', '*', '/'])) = true := by
    simp [hasPref]
  have hc3 : (hasPref ['/', '*'] ('/' :: '*' :: '\n' :: (s ++ ['\n', '*', '/'])) &&
      hasSuffix ['*', '/'] ('/' :: '*' :: '\n' :: (s ++ ['\n', '*', '/']))) = true := by
    simp only [Bool.and_eq_true]
    refine ⟨by simp [hasPref], ?_⟩
    simp [hasSuffix, hasPref, List.reverse_cons, List.reverse_append]
  have hc4 : ¬ ('/' :: '*' :: '\n' :: (s ++ ['\n', '*', '/'])).length < 4 := by
    rw [hlen]
    omega
  rw [if_neg hc1, if_neg hc2, if_pos hc3, if_neg hc4, hinner0,
    block_inner_eq s hl hr]
  by_cases hsmall : s.length < 2
  · rw [if_pos hsmall]
  · rw [if_neg hsmall]
    obtain ⟨l0, t, hsplit⟩ : ∃ l0 t, splitLines s = l0 :: t := by
      cases hh : splitLines s with
      | nil => exact absurd hh (splitLines_ne_nil s)
      | cons a b => exact ⟨a, b, rfl⟩
    rcases hsafe with hcon | ⟨hhead, htail⟩
    · omega
    · rw [hsplit] at hhead htail
      simp only [List.headD_cons, List.tail_cons] at hhead htail
      rw [hsplit]
      show (let p := blockFirst l0; blockLoop s t p.1 p.2) = ParseResult.ok s CommentStyle.block
      rw [blockFirst_not_star l0 hhead]
      show blockLoop s t l0 false = ParseResult.ok s CommentStyle.block
      rcases htail with rfl | hex
      · have hs2 : l0 = s := by
          have := joinLines_splitLines s
          rw [hsplit] at this
          simpa [joinLines, joinTail] using this
        simp [blockLoop, hs2]
      · exact blockLoop_exists_nonstar s t hex l0 false

theorem noNl_lineOpt (l : List Char) (h : '\n' ∉ l) : '\n' ∉ lineOpt l := by
  cases l with
  | nil => simp [lineOpt]
  | cons c t =>
    simp only [lineOpt, if_neg (List.cons_ne_nil c t), List.mem_cons, not_or]
    simp only [List.mem_cons, not_or] at h
    exact ⟨by decide, h.1, h.2⟩

theorem noNl_starPiece (l : List Char) (h : '\n' ∉ l) : '\n' ∉ starPiece l := by
  simp only [starPiece, List.mem_cons, not_or]
  exact ⟨by decide, by decide, noNl_lineOpt l h⟩

theorem noNl_starHead (l : List Char) (h : '\n' ∉ l) : '\n' ∉ '*' :: lineOpt l := by
  simp only [List.mem_cons, not_or]
  exact ⟨by decide, noNl_lineOpt l h⟩

theorem trimRight_starPiece (L : List Char) (h : trimRight L = L) :
    trimRight (starPiece L) = starPiece L := by
  rcases trimRight_eq_self_cases L h with rfl | ⟨X, c, rfl, hc⟩
  · show trimRight ([' '] ++ ['*']) = [' '] ++ ['*']
    exact trimRight_append_nonspace [' '] '*' (by decide)
  · have hsh : starPiece (X ++ [c]) = (' ' :: '*' :: ' ' :: X) ++ [c] := by
      simp [starPiece, lineOpt]
    rw [hsh]
    exact trimRight_append_nonspace _ c hc

theorem trimRight_starHead (L : List Char) (h : trimRight L = L) :
    trimRight ('*' :: lineOpt L) = '*' :: lineOpt L := by
  rcases trimRight_eq_self_cases L h with rfl | ⟨X, c, rfl, hc⟩
  · show trimRight ([] ++ ['*']) = [] ++ ['*']
    exact trimRight_append_nonspace [] '*' (by decide)
  · have hsh : '*' :: lineOpt (X ++ [c]) = ('*' :: ' ' :: X) ++ [c] := by
      simp [lineOpt]
    rw [hsh]
    exact trimRight_append_nonspace _ c hc

/-- Round trip for the starred block comment style, on non-empty texts whose
final line carries no trailing whitespace. -/
theorem parse_render_starred (s : List Char) (hne : s ≠ []) (h : lastLineOK s) :
    parseComment (CommentStyle.render .starredBlock s) = .ok s .starredBlock := by
  obtain ⟨l0, t, hsplit⟩ : ∃ l0 t, splitLines s = l0 :: t := by
    cases hh : splitLines s with
    | nil => exact absurd hh (splitLines_ne_nil s)
    | cons a b => exact ⟨a, b, rfl⟩
  have hnl := splitLines_no_newline s
  rw [hsplit] at hnl
  have hlastL : trimRight (lastD (l0 :: t)) = lastD (l0 :: t) := by
    unfold lastLineOK at h
    rwa [hsplit] at h
  have hbody : catMap (fun l => ' ' :: '*' :: (lineOpt l ++ ['\n'])) (splitLines s) =
      joinLines ((l0 :: t).map starPiece) ++ ['\n'] := by
    show catMap (fun l => starPiece l ++ ['\n']) (splitLines s) = _
    rw [hsplit, catMap_newline_eq _ _ (by simp)]
  have hKM : joinLines ((l0 :: t).map starPiece) =
      ' ' :: joinLines (('*' :: lineOpt l0) :: t.map starPiece) := by
    simp [joinLines, starPiece]
  have hMsh : joinLines (('*' :: lineOpt l0) :: t.map starPiece) =
      '*' :: (lineOpt l0 ++ joinTail (t.map starPiece)) := by
    simp [joinLines]
  have hrend : CommentStyle.render .starredBlock s =
      '/' :: '*' :: '\n' :: ((joinLines ((l0 :: t).map starPiece) ++ ['\n']) ++ [' ', '*', '/', '\n']) := by
    show '/' :: '*' :: '\n' ::
        (catMap (fun l => ' ' :: '*' :: (lineOpt l ++ ['\n'])) (splitLines s)
          ++ ' ' :: '*' :: '/' :: '\n' :: []) = _
    rw [hbody]
  have htrim : trimSpace (CommentStyle.render .starredBlock s) =
      '/' :: '*' :: '\n' :: (joinLines ((l0 :: t).map starPiece) ++ ['\n', ' ', '*', '/']) := by
    rw [hrend]
    unfold trimSpace
    rw [trimLeft_cons_nonspace _ _ (by decide)]
    have e1 : '/' :: '*' :: '\n' ::
        ((joinLines ((l0 :: t).map starPiece) ++ ['\n']) ++ [' ', '*', '/', '\n']) =
        (('/' :: '*' :: '\n' :: (joinLines ((l0 :: t).map starPiece) ++ ['\n', ' ', '*'])) ++ ['/'])
          ++ ['\n'] := by
      simp
    rw [e1, trimRight_append_space _ '\n' (by decide),
      trimRight_append_nonspace _ '/' (by decide)]
    simp
  have hlenT : ('/' :: '*' :: '\n' ::
      (joinLines ((l0 :: t).map starPiece) ++ ['\n', ' ', '*', '/'])).length =
      (joinLines ((l0 :: t).map starPiece)).length + 7 := by
    simp
  have hinner0 :
      (('/' :: '*' :: '\n' :: (joinLines ((l0 :: t).map starPiece) ++ ['\n', ' ', '*', '/'])).drop 2).take
        (('/' :: '*' :: '\n' :: (joinLines ((l0 :: t).map starPiece) ++ ['\n', ' ', '*', '/'])).length - 4) =
        '\n' :: (joinLines ((l0 :: t).map starPiece) ++ ['\n', ' ']) := by
    rw [hlenT]
    simp only [List.drop_succ_cons, List.drop_zero]
    rw [show (joinLines ((l0 :: t).map starPiece)).length + 7 - 4 =
      (joinLines ((l0 :: t).map starPiece)).length + 2 + 1 from by omega, List.take_succ_cons,
      List.take_append_eq_append_take]
    have hta : (joinLines ((l0 :: t).map starPiece)).take
        ((joinLines ((l0 :: t).map starPiece)).length + 2) =
        joinLines ((l0 :: t).map starPiece) := List.take_of_length_le (by omega)
    rw [hta, show (joinLines ((l0 :: t).map starPiece)).length + 2 -
      (joinLines ((l0 :: t).map starPiece)).length = 2 from by omega]
    simp
  have hTRM : trimRight (joinLines (('*' :: lineOpt l0) :: t.map starPiece)) =
      joinLines (('*' :: lineOpt l0) :: t.map starPiece) := by
    apply trimRight_joinLines _ (by simp)
    · cases t with
      | nil =>
        show trimRight ('*' :: lineOpt l0) = '*' :: lineOpt l0
        exact trimRight_starHead l0 hlastL
      | cons y t2 =>
        rw [List.map_cons, lastD_cons_cons, ← List.map_cons, lastD_map _ _ (by simp)]
        rw [lastD_cons_cons] at hlastL
        exact trimRight_starPiece _ hlastL
    · cases t with
      | nil => simp [lastD]
      | cons y t2 =>
        rw [List.map_cons, lastD_cons_cons, ← List.map_cons, lastD_map _ _ (by simp)]
        simp [starPiece]
  have hinner : trimSpace ('\n' :: (joinLines ((l0 :: t).map starPiece) ++ ['\n', ' '])) =
      joinLines (('*' :: lineOpt l0) :: t.map starPiece) := by
    unfold trimSpace
    rw [trimLeft_cons_space _ _ (by decide), hKM]
    rw [List.cons_append, trimLeft_cons_space _ _ (by decide)]
    rw [hMsh, List.cons_append, trimLeft_cons_nonspace _ _ (by decide), ← List.cons_append, ← hMsh]
    have e2 : joinLines (('*' :: lineOpt l0) :: t.map starPiece) ++ ['\n', ' '] =
        ((joinLines (('*' :: lineOpt l0) :: t.map starPiece) ++ ['\n']) ++ [' ']) := by
      simp
    rw [e2, trimRight_append_space _ ' ' (by decide), trimRight_append_space _ '\n' (by decide),
      hTRM]
  have hl0ne : t = [] → l0 ≠ [] := by
    intro ht hl0
    apply hne
    have := joinLines_splitLines s
    rw [hsplit, ht, hl0] at this
    simpa [joinLines, joinTail] using this
  have hlenM : ¬ (joinLines (('*' :: lineOpt l0) :: t.map starPiece)).length < 2 := by
    rw [hMsh]
    cases t with
    | nil =>
      have := hl0ne rfl
      cases l0 with
      | nil => exact absurd rfl this
      | cons c r => simp [lineOpt, joinTail]
    | cons y t2 =>
      simp [joinTail]
      omega
  have hsplitM : splitLines (joinLines (('*' :: lineOpt l0) :: t.map starPiece)) =
      ('*' :: lineOpt l0) :: t.map starPiece := by
    apply splitLines_joinLines _ (by simp)
    intro x hx
    rcases List.mem_cons.mp hx with rfl | hx2
    · exact noNl_starHead l0 (hnl l0 (by simp))
    · simp only [List.mem_map] at hx2
      obtain ⟨y, hy, rfl⟩ := hx2
      exact noNl_starPiece y (hnl y (by simp [hy]))
  unfold parseComment
  rw [htrim]
  have hc1 : ¬ ('/' :: '*' :: '\n' ::
      (joinLines ((l0 :: t).map starPiece) ++ ['\n', ' ', '*', '/'])).length < 2 := by
    rw [hlenT]
    omega
  have hc2 : ¬ hasPref ['/', '/'] ('/' :: '*' :: '\n' ::
      (joinLines ((l0 :: t).map starPiece) ++ ['\n', ' ', '*', '/'])) = true := by
    simp [hasPref]
  have hc3 : (hasPref ['/', '*'] ('/' :: '*' :: '\n' ::
      (joinLines ((l0 :: t).map starPiece) ++ ['\n', ' ', '*', '/'])) &&
      hasSuffix ['*', '/'] ('/' :: '*' :: '\n' ::
      (joinLines ((l0 :: t).map starPiece) ++ ['\n', ' ', '*', '/']))) = true := by
    simp only [Bool.and_eq_true]
    refine ⟨by simp [hasPref], ?_⟩
    simp [hasSuffix, hasPref, List.reverse_cons, List.reverse_append]
  have hc4 : ¬ ('/' :: '*' :: '\n' ::
      (joinLines ((l0 :: t).map starPiece) ++ ['\n', ' ', '*', '/'])).length < 4 := by
    rw [hlenT]
    omega
  rw [if_neg hc1, if_neg hc2, if_pos hc3, if_neg hc4, hinner0, hinner, if_neg hlenM, hsplitM]
  show (let p := blockFirst ('*' :: lineOpt l0)
        blockLoop (joinLines (('*' :: lineOpt l0) :: t.map starPiece)) (t.map starPiece) p.1 p.2) =
      ParseResult.ok s CommentStyle.starredBlock
  rw [blockFirst_star]
  show blockLoop (joinLines (('*' :: lineOpt l0) :: t.map starPiece)) (t.map starPiece) l0 true =
      ParseResult.ok s CommentStyle.starredBlock
  rw [blockLoop_map_star]
  have hs2 : l0 ++ joinTail t = s := by
    have := joinLines_splitLines s
    rw [hsplit] at this
    simpa [joinLines] using this
  rw [hs2]

/-- Strip the range back to its start: the `strings.SplitN(year, "-", 2)`
step keeps the part before the first hyphen (and the whole string when there
is none). -/
theorem splitStart (y : List Char) :
    (if y.contains '-' then y.takeWhile (fun c => c ≠ '-') else y) =
      y.takeWhile (fun c => c ≠ '-') := by
  by_cases h : y.contains '-'
  · rw [if_pos h]
  · rw [if_neg h]
    symm
    apply List.takeWhile_eq_self_iff.mpr
    intro x hx
    have hm : '-' ∉ y := by
      intro hmem
      rw [← List.elem_iff] at hmem
      rw [show (List.elem '-' y) = y.contains '-' from rfl] at hmem
      exact h hmem
    simp only [ne_eq, decide_eq_true_eq]
    intro hxe
    exact hm (hxe ▸ hx)

/-- Modelled from the spec (§4.4): collapse consecutive equal years, as in
"comma-separated list of distinct years (in chronological order) ...
collapsing consecutive same-year entries". -/
def dedupConsecutive : List Nat → List Nat
  | [] => []
  | [a] => [a]
  | a :: b :: t =>
    if a = b then dedupConsecutive (b :: t) else a :: dedupConsecutive (b :: t)

/-- Join years with `", "`. -/
def csvJoin : List Nat → List Char
  | [] => []
  | [a] => yearFmt a
  | a :: b :: t => yearFmt a ++ ',' :: ' ' :: csvJoin (b :: t)

/-- Modelled from the spec (§4.4, GitModifiedList): the comma-separated list
of the years with consecutive same-year entries collapsed. -/
def yearsCSV (ts : List Nat) : List Char := csvJoin (dedupConsecutive ts)

theorem dedupConsecutive_cons_ne_nil (a : Nat) (l : List Nat) :
    dedupConsecutive (a :: l) ≠ [] := by
  induction l generalizing a with
  | nil => simp [dedupConsecutive]
  | cons b t ih =>
    by_cases hab : a = b
    · simpa [dedupConsecutive, hab] using ih b
    · simp [dedupConsecutive, hab]

theorem csvJoin_cons (a : Nat) (l : List Nat) (h : l ≠ []) :
    csvJoin (a :: l) = yearFmt a ++ ',' :: ' ' :: csvJoin l := by
  cases l with
  | nil => exact absurd rfl h
  | cons b t => rfl

theorem yearsCSV_cons_ne_nil (a : Nat) (l : List Nat) : yearsCSV (a :: l) ≠ [] := by
  unfold yearsCSV
  cases hd : dedupConsecutive (a :: l) with
  | nil => exact absurd hd (dedupConsecutive_cons_ne_nil a l)
  | cons x xs =>
    cases xs with
    | nil => simp [csvJoin, yearFmt]
    | cons y ys => simp [csvJoin, yearFmt]

/-- The `YearModeGitModifiedList` loop of `Header.Update` computes exactly
the consecutive-collapsed comma-separated year list. -/
theorem gitListLoop_spec (rest : List Nat) :
    ∀ prev, yearFmt prev ++ gitListLoop prev rest = yearsCSV (prev :: rest) := by
  induction rest with
  | nil =>
    intro prev
    simp [gitListLoop, yearsCSV, dedupConsecutive, csvJoin]
  | cons t ts ih =>
    intro prev
    by_cases hpt : prev = t
    · subst hpt
      have hstep : gitListLoop prev (prev :: ts) = gitListLoop prev ts := by
        simp [gitListLoop]
      rw [hstep, ih prev]
      unfold yearsCSV
      rw [show dedupConsecutive (prev :: prev :: ts) = dedupConsecutive (prev :: ts) from by
        simp [dedupConsecutive]]
    · have hstep : gitListLoop prev (t :: ts) =
          ',' :: ' ' :: yearFmt t ++ gitListLoop t ts := by
        simp [gitListLoop, hpt]
      rw [hstep]
      unfold yearsCSV
      rw [show dedupConsecutive (prev :: t :: ts) = prev :: dedupConsecutive (t :: ts) from by
        simp [dedupConsecutive, hpt]]
      rw [csvJoin_cons prev _ (dedupConsecutive_cons_ne_nil t ts)]
      have ih2 : yearFmt t ++ gitListLoop t ts = csvJoin (dedupConsecutive (t :: ts)) := ih t
      rw [← ih2]
      simp

/-- The string constant `"2022"`. -/
def y2022 : List Char := "2022".toList

/-- The string constant `"2025"`. -/
def y2025 : List Char := "2025".toList

/-- The string constant `"2022-2025"`. -/
def y20222025 : List Char := "2022-2025".toList

/-- The string constant `"2025-2025"`. -/
def y20252025 : List Char := "2025-2025".toList

/-- The string constant `"2024-2020"` (a degenerate range). -/
def yr2024range : List Char := "2024-2020".toList

/-- The literal text before the year in the test template. -/
def copyLit : List Char := "Copyright (c) ".toList

/-- The literal text after the year in the compiled matcher. -/
def spaceTest : List Char := " Test".toList

/-- The author value of the test configuration. -/
def authTest : List Char := "Test".toList

/-- The template `Copyright (c) year author` used throughout header_test.go. -/
def tmplCopy : List TmplElem :=
  [.lit copyLit, .var yearKey, .lit [' '], .var authorKey]

/-- Rendered text with a single year. -/
def sC1good : List Char := "Copyright (c) 2025 Test".toList

/-- Rendered text with a year range. -/
def sC1range : List Char := "Copyright (c) 2022-2025 Test".toList

/-- A line-commented header with the current year. -/
def sHdr25 : List Char := "// Copyright (c) 2025 Test\n".toList

/-- The header the year-policy table expects for a file last modified in
2020. -/
def sHdr20 : List Char := "// Copyright (c) 2020 Test\n".toList

/-- An input that is not a comment. -/
def sHello : List Char := "hello world".toList

/-- Another input that is not a comment. -/
def sRandom : List Char := "random text".toList

/-- A comment that the matcher does not match. -/
def sUnrel : List Char := "// unrelated\n".toList

/-- The parsed content of `sUnrel`. -/
def sUnrelParsed : List Char := "unrelated".toList

/-- An existing header with an outdated year. -/
def sHdrIn : List Char := "// Copyright (c) 2022 Test\n".toList

/-- The overlapping block delimiter input. -/
def sSlashStarSlash : List Char := "/*/".toList

/-- A line comment whose second line is shorter than two characters. -/
def sLineShort : List Char := "// a\nx".toList

/-- Plain text with a leading space. -/
def sSpA : List Char := " a".toList

/-- `sSpA` with its leading space lost. -/
def sA : List Char := "a".toList

/-- A multi-line text with a blank line and a leading space. -/
def sW : List Char := "Copyright 2025\n\n Indented".toList

/-- An existing header carrying the degenerate range. -/
def sIn4 : List Char := "// 2025-2025\n".toList

/-- What `Update` produces for `sIn4` under `PreserveThisYearRange`. -/
def sOut4 : List Char := "// 2025\n".toList

/-- What the claim expects for `sIn4`: the year string unchanged. -/
def sPres4 : List Char := "// 2025-2025\n".toList

/-- The expected `GitModifiedList` output of the spec scenario. -/
def sC5out : List Char := "2022, 2024, 2025".toList

/-- A custom variable name. -/
def projKey : List Char := "project".toList

/-- A custom variable value containing a regexp metacharacter. -/
def projVal : List Char := "go.licenser".toList

/-- Test header: copyright template, author `Test`, matcher abstraction that
never matches. -/
def hTest : HeaderM := ⟨tmplCopy, fun _ => none, authTest, [], .thisYear, .line⟩

/-- Test header under `YearModeLastModified`. -/
def hC2 : HeaderM := ⟨tmplCopy, fun _ => none, authTest, [], .lastModified, .line⟩

/-- Test header whose matcher captures the degenerate range `2025-2025`
under `YearModePreserveThisYearRange`. -/
def hC4 : HeaderM :=
  ⟨[TmplElem.var yearKey], fun _ => some (some y20252025), authTest, [], .preserveThisYearRange, .line⟩

/-- Test header under `YearModeGitRange` whose matcher captures `2022`. -/
def hC8 : HeaderM := ⟨tmplCopy, fun _ => some (some y2022), authTest, [], .gitRange, .line⟩

/-- Environment: current year 2025, no git data. -/
def env2025 : GitEnv := ⟨y2025, none, none, none⟩

/-- Environment: current year 2025, file last modified in 2020. -/
def envC2 : GitEnv := ⟨y2025, some 2020, none, none⟩

/-- Environment: current year 2025, git history created 2022 / modified 2025. -/
def envC1 : GitEnv := ⟨y2025, none, some (2022, 2025), none⟩

/-- Environment: current year 2025, git modification years 2022, 2022, 2024,
2025. -/
def envC5 : GitEnv := ⟨y2025, none, none, some [2022, 2022, 2024, 2025]⟩

/-- Claim C1: the matcher compiled from a template must match text rendered
with any valid year-policy output, including hyphenated ranges.  The code
violates this: `regexpYears` (header.go line 41) misspells the range
alternative (`\x7b4]` instead of `\x7b4\x7d`), so, while the `GitRange`
policy itself produces `2022-2025` and the matcher accepts a single year, it
rejects the same template text rendered with the range — contradicting the
comment on lines 38-40, which promises that `"2022-2025"` is matched. -/
theorem C1_regexp_years_typo :
    updateYear .gitRange none envC1 = y20222025 ∧
    renderT hTest [] y20222025 = some sC1range ∧
    litYearLitAccepts copyLit spaceTest sC1range = false ∧
    renderT hTest [] y2025 = some sC1good ∧
    litYearLitAccepts copyLit spaceTest sC1good = true ∧
    yearAlt y20222025 = false :=
  ⟨by decide, by decide, by decide, by decide, by decide, by decide⟩

/-- Claim C2: `Header.Create` is specified to resolve the year under the
"new header" column of the active policy (last-modified year under
`YearModeLastModified`, the git range under `YearModeGitRange`).  The code
violates this: `Create` (header.go lines 390-397) always renders with
`timeNow().Format("2006")` and never consults the year mode or any lookup,
contradicting the documentation of the `YearMode` constants (header.go
lines 56-82).  With the file last modified in 2020 and the current year
2025, `Create` emits the 2025 header instead of the required 2020 one. -/
theorem C2_create_ignores_year_mode :
    (∀ (h : HeaderM) (env : GitEnv) (f : List Char) (ym : YearMode),
      create { h with yearMode := ym } env f = create h env f) ∧
    create hC2 envC2 [] = some sHdr25 ∧
    (renderT hC2 [] (yearFmt 2020)).map (CommentStyle.render .line) = some sHdr20 ∧
    sHdr25 ≠ sHdr20 :=
  ⟨fun _ _ _ _ => rfl, by decide, by decide, by decide⟩

/-- Claim C3, counterexample: the round trip `parseComment ∘ render` is not
the identity for every plain text.  Block style with the text `" a"`
(a leading space, which the claim explicitly includes) parses back to
`"a"`: the block branch trims the whole content slice. -/
theorem C3_roundtrip_counterexample :
    parseComment (CommentStyle.render .block sSpA) = .ok sA .block ∧ sA ≠ sSpA :=
  ⟨by decide, by decide⟩

/-- Claim C3, amended: `parseComment (cs.render x) = (x, cs)` holds for line
comments when the final line of `x` has no trailing whitespace; for block
comments when `x` additionally has no leading/trailing whitespace, its first
line does not begin with `*`, and (if multi-line) some later line does not
begin with `" *"`; and for starred blocks when `x` is non-empty and its
final line has no trailing whitespace. -/
theorem C3_roundtrip_amended :
    (∀ s, lastLineOK s → parseComment (CommentStyle.render .line s) = .ok s .line) ∧
    (∀ s, trimLeft s = s → trimRight s = s → blockSafe s →
      parseComment (CommentStyle.render .block s) = .ok s .block) ∧
    (∀ s, s ≠ [] → lastLineOK s →
      parseComment (CommentStyle.render .starredBlock s) = .ok s .starredBlock) :=
  ⟨parse_render_line, parse_render_block, parse_render_starred⟩

/-- Claim C3, witness: the amended round trip at a concrete multi-line text
with a blank line and a leading space. -/
theorem C3_roundtrip_witness :
    parseComment (CommentStyle.render .line sW) = .ok sW .line ∧
    parseComment (CommentStyle.render .block sW) = .ok sW .block ∧
    parseComment (CommentStyle.render .starredBlock sW) = .ok sW .starredBlock :=
  ⟨C3_roundtrip_amended.1 sW (by unfold lastLineOK; decide),
   C3_roundtrip_amended.2.1 sW (by decide) (by decide) (by unfold blockSafe; decide),
   C3_roundtrip_amended.2.2 sW (by decide) (by unfold lastLineOK; decide)⟩

/-- Claim C4, counterexample: under `YearModePreserveThisYearRange`,
`Update` on a matched previous year string `2025-2025` with current year
2025 does not leave the year string unchanged — the degenerate range
collapses to `2025`. -/
theorem C4_counterexample :
    update hC4 env2025 [] sIn4 = .ok sOut4 true ∧ sOut4 ≠ sPres4 :=
  ⟨by decide, by decide⟩

/-- Claim C4, amended: under `YearModePreserveThisYearRange` the updated
year is start-current whenever the start (the part of the previous year
string before its first hyphen) differs from the current year — hence
previous `2022` becomes `2022-2025` and previous `2022-2025` stays
`2022-2025` with current year 2025 — and when the start equals the current
year the result is the start alone, which equals the previous string only
when that string is a single year. -/
theorem C4_amended :
    updateYear .preserveThisYearRange (some y2022) env2025 = y20222025 ∧
    updateYear .preserveThisYearRange (some y20222025) env2025 = y20222025 ∧
    (∀ (prev cur : List Char) (lm : Option Nat) (gr : Option (Nat × Nat))
      (gl : Option (List Nat)),
      prev.takeWhile (fun c => c ≠ '-') ≠ cur →
      updateYear .preserveThisYearRange (some prev) ⟨cur, lm, gr, gl⟩ =
        prev.takeWhile (fun c => c ≠ '-') ++ '-' :: cur) ∧
    (∀ (prev cur : List Char) (lm : Option Nat) (gr : Option (Nat × Nat))
      (gl : Option (List Nat)),
      prev.takeWhile (fun c => c ≠ '-') = cur →
      updateYear .preserveThisYearRange (some prev) ⟨cur, lm, gr, gl⟩ =
        prev.takeWhile (fun c => c ≠ '-')) := by
  refine ⟨by decide, by decide, ?_, ?_⟩
  · intro prev cur lm gr gl hne
    show (if (if prev.contains '-' then prev.takeWhile (fun c => c ≠ '-') else prev) = cur
          then (if prev.contains '-' then prev.takeWhile (fun c => c ≠ '-') else prev)
          else (if prev.contains '-' then prev.takeWhile (fun c => c ≠ '-') else prev)
            ++ '-' :: cur) =
        prev.takeWhile (fun c => c ≠ '-') ++ '-' :: cur
    rw [splitStart, if_neg hne]
  · intro prev cur lm gr gl heq
    show (if (if prev.contains '-' then prev.takeWhile (fun c => c ≠ '-') else prev) = cur
          then (if prev.contains '-' then prev.takeWhile (fun c => c ≠ '-') else prev)
          else (if prev.contains '-' then prev.takeWhile (fun c => c ≠ '-') else prev)
            ++ '-' :: cur) =
        prev.takeWhile (fun c => c ≠ '-')
    rw [splitStart, if_pos heq]

/-- Claim C4, witness: the amended statement at concrete inputs. -/
theorem C4_witness :
    updateYear .preserveThisYearRange (some yr2024range) ⟨y2025, none, none, none⟩ =
      yr2024range.takeWhile (fun c => c ≠ '-') ++ '-' :: y2025 :=
  C4_amended.2.2.1 yr2024range y2025 none none none (by decide)

/-- Claim C5: under `YearModeGitModifiedList`, for every non-empty
chronologically ordered list of modification years the computed year string
(with the blank-year fallback applied) is the comma-separated list of the
years with consecutive same-year entries collapsed. -/
theorem C5_git_modified_list (ts : List Nat) (cap : Option (List Char)) (env : GitEnv)
    (h1 : ts ≠ []) (h2 : List.Chain' (· ≤ ·) ts) (h3 : env.gitList = some ts) :
    (if updateYear .gitModifiedList cap env = [] then env.currentYear
     else updateYear .gitModifiedList cap env) = yearsCSV ts := by
  cases ts with
  | nil => exact absurd rfl h1
  | cons t rest =>
    have hy : updateYear .gitModifiedList cap env = yearFmt t ++ gitListLoop t rest := by
      simp [updateYear, h3]
    rw [hy, gitListLoop_spec rest t, if_neg (yearsCSV_cons_ne_nil t rest)]

/-- Claim C5, witness: years `[2022, 2022, 2024, 2025]` yield exactly
`"2022, 2024, 2025"`. -/
theorem C5_witness :
    (if updateYear .gitModifiedList none envC5 = [] then envC5.currentYear
     else updateYear .gitModifiedList none envC5) = sC5out :=
  (C5_git_modified_list [2022, 2022, 2024, 2025] none envC5 (by decide)
    (by norm_num [List.chain'_cons]) rfl).trans (by decide)

/-- Claim C6, counterexample: `Update` on an input that is not a valid
comment of any style does not degrade gracefully — it fails that file with
an error (header.go lines 401-404 propagate the `parseComment` error). -/
theorem C6_counterexample :
    parseComment sHello = .err ∧ update hTest env2025 [] sHello = .err :=
  ⟨by decide, by decide⟩

/-- Claim C6, amended: for every input string on which `parseComment`
returns an error, `Update` returns an error for that file instead of
treating the input as non-matching. -/
theorem C6_update_errs_on_unparseable (h : HeaderM) (env : GitEnv) (f input : List Char)
    (hp : parseComment input = .err) : update h env f input = .err := by
  simp [update, hp]

/-- Claim C6, witness: the amended statement at a concrete input. -/
theorem C6_witness : update hTest env2025 [] sRandom = .err :=
  C6_update_errs_on_unparseable hTest env2025 [] sRandom (by decide)

/-- Claim C7: when the compiled matcher finds no match in the parsed
comment, `Update` returns the parsed text it ran the matcher against
untouched, with `changed = false` and no error (header.go lines 405-408). -/
theorem C7_no_match_unchanged (h : HeaderM) (env : GitEnv) (f input text : List Char)
    (cs : CommentStyle) (hp : parseComment input = .ok text cs)
    (hm : h.findMatch text = none) : update h env f input = .ok text false := by
  simp [update, hp, hm]

/-- Claim C7, witness: a comment that the matcher does not match is passed
through unchanged. -/
theorem C7_witness : update hTest env2025 [] sUnrel = .ok sUnrelParsed false :=
  C7_no_match_unchanged hTest env2025 [] sUnrel sUnrelParsed .line (by decide) rfl

/-- Claim C8: under the git-backed year policies (`LastModified`,
`GitRange`, `GitModifiedList`), when every history lookup fails, `Update`
returns no error: the resolved year stays blank and the current year is
substituted, so the header is re-rendered with the current year. -/
theorem C8_git_failure_fallback (h : HeaderM) (env : GitEnv) (f input text : List Char)
    (cs : CommentStyle) (cap : Option (List Char)) (out : List Char)
    (hym : h.yearMode = .lastModified ∨ h.yearMode = .gitRange ∨ h.yearMode = .gitModifiedList)
    (hlm : env.lastMod = none) (hgr : env.gitRange = none) (hgl : env.gitList = none)
    (hp : parseComment input = .ok text cs) (hm : h.findMatch text = some cap)
    (hr : renderT h f env.currentYear = some out) :
    update h env f input =
      .ok (CommentStyle.render h.commentStyle out)
        (decide (out ≠ text) || decide (h.commentStyle ≠ cs)) := by
  have hy : updateYear h.yearMode cap env = [] := by
    rcases hym with h1 | h1 | h1 <;> simp [updateYear, h1, hlm, hgr, hgl]
  simp [update, hp, hm, hy, hr]

/-- Claim C8, witness: a `GitRange` header with all lookups failing is
re-rendered with the current year and no error. -/
theorem C8_witness : update hC8 env2025 [] sHdrIn = .ok sHdr25 true :=
  (C8_git_failure_fallback hC8 env2025 [] sHdrIn
    ("Copyright (c) 2022 Test".toList) .line (some y2022) sC1good
    (Or.inr (Or.inl rfl)) rfl rfl rfl (by decide) rfl (by decide)).trans (by decide)

/-- Claim C9: `parseComment` is specified (and documented, header.go lines
202-203) to return an error on invalid input, but it panics: the overlapping
delimiter `"/*/"` makes the `s[2:len(s)-2]` slice fail, and a line comment
whose second line is shorter than two characters makes the `l[2:]` slice
fail. -/
theorem C9_parse_comment_panics :
    parseComment sSlashStarSlash = .panic ∧ parseComment sLineShort = .panic :=
  ⟨by decide, by decide⟩

/-- Claim C10: the variable-regexp loop of `NewHeader` overwrites, in the
caller's map, the `Regexp` field of every variable whose pattern was left
empty with the regexp-escaped value — and afterwards a map that relied on
defaulting is indistinguishable from one that spelled the escaped pattern
out. -/
theorem C10_new_header_mutates_vars :
    (∀ (vars : List (List Char × Var)) (n : List Char) (v : Var),
      (n, v) ∈ vars → v.regexp = [] →
      (n, { v with regexp := quoteMeta v.value }) ∈ defaultVarRegexps vars) ∧
    (defaultVarRegexps [(projKey, ⟨projVal, []⟩)] =
        defaultVarRegexps [(projKey, ⟨projVal, quoteMeta projVal⟩)] ∧
      [(projKey, (⟨projVal, []⟩ : Var))] ≠ [(projKey, ⟨projVal, quoteMeta projVal⟩)]) := by
  constructor
  · intro vars n v hmem hempty
    unfold defaultVarRegexps
    refine List.mem_map.mpr ⟨(n, v), hmem, ?_⟩
    simp [hempty]
  · exact ⟨by decide, by decide⟩

/-- Claim C10, witness: the defaulting at a concrete variable map. -/
theorem C10_witness :
    (projKey, ({ value := projVal, regexp := quoteMeta projVal } : Var)) ∈
      defaultVarRegexps [(projKey, ⟨projVal, []⟩)] :=
  C10_new_header_mutates_vars.1 [(projKey, ⟨projVal, []⟩)] projKey ⟨projVal, []⟩ (by simp) rfl

end golicenser
